import Mathlib

/-!
Verification of the MIDAS voice-assistant core: the streaming chat pipeline
(`src/routes.py`), the keyword retrieval scorer (`src/rag.py`), the settings
manager (`src/config.py`), and the latency profiler plus WAV audio encoder
(`src/utils.py`).  Python strings are modelled as `List Char` / `String`,
Python dicts as association lists with unique keys, Python sets of strings as
deduplicated lists, floats as exact rationals.
-/

namespace Midas

/-- Python whitespace characters (the default set stripped by `str.strip`):
space, tab, newline, carriage return, vertical tab, form feed. -/
def isSpace (c : Char) : Bool :=
  c = ' ' || c = '\t' || c = '\n' || c = '\r' || c = Char.ofNat 11 || c = Char.ofNat 12

/-- Python regex `\w` word character (ASCII range): letter, digit or underscore. -/
def isWordChar (c : Char) : Bool :=
  c.isAlphanum || c = '_'

/-- `str.rstrip()` on a character list. -/
def rstripL (l : List Char) : List Char :=
  (l.reverse.dropWhile isSpace).reverse

/-- `str.lstrip()` on a character list. -/
def lstripL (l : List Char) : List Char :=
  l.dropWhile isSpace

/-- `str.strip()` on a character list. -/
def stripL (l : List Char) : List Char :=
  rstripL (lstripL l)

/-- One pass of `re.sub(r'\[.*?\]', '', s)`.  The second argument is `none`
while scanning outside a bracketed span, and `some pending` while inside one,
where `pending` holds (reversed) the characters consumed since the opening
`[`.  A closing `]` discards the whole span; a newline aborts the span (Python
`.` does not match a newline) and replays the pending characters verbatim. -/
def stripBracketsAux : List Char → Option (List Char) → List Char
  | [], none => []
  | [], some pending => pending.reverse
  | c :: rest, none =>
      if c = '[' then stripBracketsAux rest (some [c])
      else c :: stripBracketsAux rest none
  | c :: rest, some pending =>
      if c = ']' then stripBracketsAux rest none
      else if c = '\n' then pending.reverse ++ '\n' :: stripBracketsAux rest none
      else stripBracketsAux rest (some (c :: pending))

/-- `re.sub(r'\[.*?\]', '', s)`: delete every non-greedy `[...]` span. -/
def stripBrackets (l : List Char) : List Char :=
  stripBracketsAux l none

/-- Helper for `wordRuns`: accumulate the current run of word characters
(reversed) and emit it when it ends. -/
def wordRunsAux : List Char → List Char → List (List Char)
  | [], acc => if acc.isEmpty then [] else [acc.reverse]
  | c :: rest, acc =>
      if isWordChar c then wordRunsAux rest (c :: acc)
      else if acc.isEmpty then wordRunsAux rest []
      else acc.reverse :: wordRunsAux rest []

/-- The maximal runs of word characters of a string, in order.  `re.findall`
with `\b\w{3,}\b` returns exactly the maximal runs of length at least 3. -/
def wordRuns (l : List Char) : List (List Char) :=
  wordRunsAux l []

/-- `set(re.findall(r'\b\w{3,}\b', s.lower()))`, modelled as a deduplicated
list of strings. -/
def keywordsOf (s : String) : List String :=
  (((wordRuns (s.data.map Char.toLower)).filter (fun r => 3 ≤ r.length)).map
    (fun r => String.mk r)).dedup

/-- A knowledge chunk of the retrieval scorer (`SimpleRAG._split_content`):
`{'content': ..., 'source': ..., 'keywords': ...}`. -/
structure Chunk where
  content : String
  source : String
  keywords : List String
deriving DecidableEq, Repr

/-- Whether a position (just after a newline) starts a markdown heading of
level 1 to 3, i.e. matches the lookahead `(?=#{1,3} )`. -/
def isHeadingStart : List Char → Bool
  | '#' :: ' ' :: _ => true
  | '#' :: '#' :: ' ' :: _ => true
  | '#' :: '#' :: '#' :: ' ' :: _ => true
  | _ => false

/-- `re.split(r'\n(?=#{1,3} )', content)`: cut at each newline that is
immediately followed by a heading marker; the newline is consumed, the
heading starts the next section. -/
def splitSections : List Char → List (List Char)
  | [] => [[]]
  | c :: rest =>
      if c = '\n' && isHeadingStart rest then
        [] :: splitSections rest
      else
        match splitSections rest with
        | [] => [[c]]
        | s :: ss => (c :: s) :: ss

/-- `SimpleRAG._split_content`: split on headings, strip each section, keep
the sections whose stripped length exceeds 20, and attach source name and
keyword set. -/
def splitContent (content : String) (source : String) : List Chunk :=
  (splitSections content.data).filterMap (fun sec =>
    let s := String.mk (stripL sec)
    if s.length > 20 then some ⟨s, source, keywordsOf s⟩ else none)

/-- `len(query_keywords & doc['keywords'])` where both sides are
deduplicated lists standing for Python sets. -/
def overlap (qk : List String) (dk : List String) : Nat :=
  (qk.filter (fun w => dk.contains w)).length

/-- The list comprehension in `SimpleRAG.retrieve`: pairs `(overlap, doc)`
for the documents with positive overlap, in load order. -/
def scoredDocs (docs : List Chunk) (query : String) : List (Nat × Chunk) :=
  docs.filterMap (fun d =>
    let ov := overlap (keywordsOf query) d.keywords
    if 0 < ov then some (ov, d) else none)

/-- `scored.sort(key=lambda x: x[0], reverse=True)`: Python's sort is stable,
so this is the stable descending sort by overlap count, realised as insertion
sort with the non-strict relation `b.1 ≤ a.1`. -/
def sortDesc (l : List (Nat × Chunk)) : List (Nat × Chunk) :=
  l.insertionSort (fun a b => b.1 ≤ a.1)

instance : IsTotal (Nat × Chunk) (fun a b => b.1 ≤ a.1) :=
  ⟨fun a b => Nat.le_total b.1 a.1⟩

instance : IsTrans (Nat × Chunk) (fun a b => b.1 ≤ a.1) :=
  ⟨fun _ _ _ h1 h2 => Nat.le_trans h2 h1⟩

/-- `scored[:top_k]` after sorting. -/
def topDocs (docs : List Chunk) (query : String) (k : Nat) : List (Nat × Chunk) :=
  (sortDesc (scoredDocs docs query)).take k

/-- `f"[From {doc['source']}]\n{doc['content'][:500]}"`. -/
def renderDoc (d : Chunk) : String :=
  "[From " ++ d.source ++ "]\n" ++ String.mk (d.content.data.take 500)

/-- `SimpleRAG.retrieve(query, top_k=2)`. -/
def retrieve (docs : List Chunk) (query : String) (top_k : Nat := 2) : String :=
  if docs.isEmpty then ""
  else
    let top := topDocs docs query top_k
    if top.isEmpty then ""
    else String.intercalate "\n\n" (top.map (fun p => renderDoc p.2))

/-- An event emitted to the websocket client during one chat turn: a
`text_chunk` JSON message (its `content` field) or a binary audio payload,
identified here by the clean text handed to the TTS collaborator. -/
inductive Event where
  | text (content : String)
  | audio (cleanText : String)
deriving DecidableEq, Repr

/-- The per-turn streaming state of the `chat` handler: the text chunk
buffer, the events sent so far, and the accumulated full response. -/
structure ChatState where
  buffer : List Char
  events : List Event
  fullResponse : List Char
deriving DecidableEq, Repr

/-- The sentence/clause delimiters `['.', '!', '?', ',', ':', ';']`. -/
def delims : List Char := ['.', '!', '?', ',', ':', ';']

/-- `any(buffer.rstrip().endswith(p) for p in delims) and len(buffer) > 5`. -/
def shouldFlush (b : List Char) : Bool :=
  (delims.any fun p => [p].isSuffixOf (rstripL b)) && b.length > 5

/-- `re.sub(r'\[.*?\]', '', buffer).strip()`. -/
def cleanOf (b : List Char) : List Char :=
  stripL (stripBrackets b)

/-- The events produced by one mid-stream flush of `buffer`: when the cleaned
text is non-empty, the `text_chunk` event carries `clean + " "` and is
followed by the audio synthesized from `clean`; otherwise nothing is sent. -/
def flushEvents (b : List Char) : List Event :=
  let clean := cleanOf b
  if clean.isEmpty then []
  else [Event.text (String.mk clean ++ " "), Event.audio (String.mk clean)]

/-- Consuming one generated token inside the `for output in stream` loop:
append it to the buffer and the full response, then flush if the buffer ends
in a delimiter (after rstrip) and is longer than 5 characters. -/
def step (st : ChatState) (token : List Char) : ChatState :=
  let buffer := st.buffer ++ token
  let full := st.fullResponse ++ token
  if shouldFlush buffer then
    { buffer := [], events := st.events ++ flushEvents buffer, fullResponse := full }
  else
    { buffer := buffer, events := st.events, fullResponse := full }

/-- The trailing `if buffer.strip():` flush after the stream ends: the final
`text_chunk` carries the clean text with no trailing space. -/
def finalEvents (st : ChatState) : List Event :=
  if (stripL st.buffer).isEmpty then st.events
  else
    let clean := cleanOf st.buffer
    if clean.isEmpty then st.events
    else st.events ++ [Event.text (String.mk clean), Event.audio (String.mk clean)]

/-- The initial per-turn state: empty buffer, no events, empty response. -/
def initState : ChatState := ⟨[], [], []⟩

/-- Run the whole token loop of the `chat` handler on a token stream. -/
def runChat (tokens : List (List Char)) : ChatState :=
  tokens.foldl step initState

/-- All events of one chat turn, including the trailing flush. -/
def chatEvents (tokens : List (List Char)) : List Event :=
  finalEvents (runChat tokens)

/-- `history.add(user_text, full_response.strip())`: the assistant text
persisted to history at the end of the turn. -/
def chatPersisted (tokens : List (List Char)) : String :=
  String.mk (stripL (runChat tokens).fullResponse)

/-- A JSON settings value: integers, exact rationals for the float-valued
parameters, strings and booleans. -/
inductive SVal where
  | int (n : Int)
  | rat (q : ℚ)
  | str (s : String)
  | boolV (b : Bool)
deriving DecidableEq, Repr

/-- Lookup in a Python dict modelled as an association list. -/
def dictGet {α : Type} : List (String × α) → String → Option α
  | [], _ => none
  | p :: rest, k => if p.1 = k then some p.2 else dictGet rest k

/-- `d[k] = v` on a Python dict: replace in place if the key exists
(insertion order preserved), otherwise append at the end. -/
def dictSet {α : Type} : List (String × α) → String → α → List (String × α)
  | [], k, v => [(k, v)]
  | p :: rest, k, v => if p.1 = k then (k, v) :: rest else p :: dictSet rest k v

/-- `k in d` on a Python dict. -/
def hasKey {α : Type} (d : List (String × α)) (k : String) : Bool :=
  d.any (fun p => p.1 = k)

/-- `{**a, **b}`: a copy of `a` updated with every entry of `b`. -/
def dictMerge {α : Type} (a b : List (String × α)) : List (String × α) :=
  b.foldl (fun d p => dictSet d p.1 p.2) a

/-- `DEFAULT_SETTINGS` from `src/config.py`. -/
def DEFAULT_SETTINGS : List (String × SVal) :=
  [("temperature", .rat (7/10)), ("topP", .rat (9/10)), ("topK", .int 40),
   ("maxTokens", .int 256), ("repeatPenalty", .rat (11/10)),
   ("contextWindow", .int 4096), ("beamSize", .int 1),
   ("vadFilter", .boolV true), ("vadThreshold", .int 300),
   ("sampleRate", .int 24000), ("voice", .str "en_0"),
   ("soundEffects", .boolV true), ("inputDevice", .str ""),
   ("outputDevice", .str "")]

/-- `SettingsManager._load`: when a persisted mapping exists, merge it over
the defaults (`{**DEFAULT_SETTINGS, **saved}`); otherwise a copy of the
defaults. -/
def settingsLoad (saved : Option (List (String × SVal))) : List (String × SVal) :=
  match saved with
  | some s => dictMerge DEFAULT_SETTINGS s
  | none => DEFAULT_SETTINGS

/-- `SettingsManager.update`: apply only the updates whose key is in
`DEFAULT_SETTINGS`; the result is then persisted verbatim by `save`. -/
def settingsUpdate (st : List (String × SVal)) (updates : List (String × SVal)) :
    List (String × SVal) :=
  updates.foldl (fun d p => if hasKey DEFAULT_SETTINGS p.1 then dictSet d p.1 p.2 else d) st

/-- The qualitative grade attached to a duration by `Profiler.report`. -/
inductive Grade where
  | good
  | warning
  | poor
deriving DecidableEq, Repr

/-- `"✅" if ms < 300 else "⚠️" if ms < 600 else "❌"`. -/
def grade (ms : ℚ) : Grade :=
  if ms < 300 then .good else if ms < 600 then .warning else .poor

/-- The `Profiler` state: `times` (recorded durations in ms) and `_starts`
(pending start timestamps), both keyed by name.  Timestamps are passed in
explicitly, standing for `time.perf_counter()` readings in seconds. -/
structure Profiler where
  times : List (String × ℚ)
  starts : List (String × ℚ)
deriving DecidableEq, Repr

/-- A fresh profiler: both dicts empty. -/
def Profiler.init : Profiler := ⟨[], []⟩

/-- `Profiler.start(name)` at clock reading `now`. -/
def Profiler.start (p : Profiler) (name : String) (now : ℚ) : Profiler :=
  { p with starts := dictSet p.starts name now }

/-- `Profiler.stop(name)` at clock reading `now`: when a matching start
exists, store the elapsed milliseconds under `name`; in all cases return
`self.times.get(name, 0)` evaluated after that update. -/
def Profiler.stop (p : Profiler) (name : String) (now : ℚ) : Profiler × ℚ :=
  let p' :=
    match dictGet p.starts name with
    | some t0 => { p with times := dictSet p.times name ((now - t0) * 1000) }
    | none => p
  (p', (dictGet p'.times name).getD 0)

/-- `Profiler.reset()`: clear both dicts. -/
def Profiler.reset (_ : Profiler) : Profiler := ⟨[], []⟩

/-- `Profiler.report()`: one `(name, grade)` line per recorded duration. -/
def Profiler.report (p : Profiler) : List (String × Grade) :=
  p.times.map (fun e => (e.1, grade e.2))

/-- The invariant that every name recorded in `times` also has a start
timestamp in `_starts`. -/
def timesKeysHaveStarts (p : Profiler) : Prop :=
  ∀ name : String, (dictGet p.times name).isSome = true →
    (dictGet p.starts name).isSome = true

/-- Truncation toward zero, the rounding used by numpy's float-to-integer
`astype` cast.  Samples are modelled as exact rationals. -/
def truncQ (q : ℚ) : Int :=
  if 0 ≤ q then ⌊q⌋ else ⌈q⌉

/-- Wrap an integer into the 16-bit signed range, the wraparound performed by
`astype(np.int16)` on out-of-range values. -/
def toInt16 (n : Int) : Int :=
  (n + 32768) % 65536 - 32768

/-- `(sample * 32767).astype(np.int16)` for one sample. -/
def sampleInt (q : ℚ) : Int :=
  toInt16 (truncQ (q * 32767))

/-- The two little-endian bytes of a 16-bit signed integer
(two's complement). -/
def le16 (n : Int) : List Nat :=
  [((n % 65536).toNat) % 256, ((n % 65536).toNat) / 256]

/-- The four little-endian bytes of a 32-bit unsigned integer. -/
def le32 (n : Nat) : List Nat :=
  [n % 256, n / 256 % 256, n / 65536 % 256, n / 16777216 % 256]

/-- Decode four little-endian bytes back into the unsigned integer. -/
def decodeLe32 : List Nat → Nat
  | [b0, b1, b2, b3] => b0 + 256 * b1 + 65536 * b2 + 16777216 * b3
  | _ => 0

/-- The ASCII codes of a marker string in the RIFF container. -/
def asciiCodes (s : String) : List Nat :=
  s.data.map Char.toNat

/-- The 44-byte canonical WAV header written by Python's `wave` module for
`nchannels=1`, `sampwidth=2`, `framerate=rate` and `numSamples` frames. -/
def wavHeader (rate : Nat) (numSamples : Nat) : List Nat :=
  asciiCodes "RIFF" ++ le32 (36 + 2 * numSamples) ++ asciiCodes "WAVE" ++
  asciiCodes "fmt " ++ le32 16 ++ le16 1 ++ le16 1 ++ le32 rate ++
  le32 (rate * 2) ++ le16 2 ++ le16 16 ++
  asciiCodes "data" ++ le32 (2 * numSamples)

/-- `audio_to_wav_bytes`: the header followed by each sample scaled by 32767,
cast to a 16-bit signed integer and written little-endian. -/
def audio_to_wav_bytes (samples : List ℚ) (rate : Nat) : List Nat :=
  wavHeader rate samples.length ++ (samples.map (fun q => le16 (sampleInt q))).flatten

/-! ## Shared helper lemmas -/

theorem dictGet_dictSet_self {α : Type} (d : List (String × α)) (k : String) (v : α) :
    dictGet (dictSet d k v) k = some v := by
  induction d with
  | nil => simp [dictGet, dictSet]
  | cons p rest ih =>
      by_cases h : p.1 = k
      · simp [dictGet, dictSet, h]
      · simp [dictGet, dictSet, h, ih]

theorem dictGet_dictSet_ne {α : Type} (d : List (String × α)) (k k' : String) (v : α)
    (h : k' ≠ k) : dictGet (dictSet d k' v) k = dictGet d k := by
  induction d with
  | nil => simp [dictGet, dictSet, h]
  | cons p rest ih =>
      simp only [dictSet]
      by_cases hp : p.1 = k'
      · rw [if_pos hp]
        have hpk : p.1 ≠ k := by rw [hp]; exact h
        simp only [dictGet, if_neg h, if_neg hpk]
      · rw [if_neg hp]
        simp only [dictGet]
        by_cases hk : p.1 = k
        · rw [if_pos hk, if_pos hk]
        · rw [if_neg hk, if_neg hk]; exact ih

theorem dictGet_dictSet_isSome {α : Type} (d : List (String × α)) (k k' : String) (v : α)
    (h : (dictGet d k).isSome = true) : (dictGet (dictSet d k' v) k).isSome = true := by
  by_cases hk : k' = k
  · subst hk; simp [dictGet_dictSet_self]
  · rwa [dictGet_dictSet_ne d k k' v hk]

theorem singleton_isPrefixOf_iff (c : Char) (m : List Char) :
    [c].isPrefixOf m = true ↔ m.head? = some c := by
  cases m with
  | nil => simp [List.isPrefixOf]
  | cons b t =>
      simp only [List.isPrefixOf, List.head?_cons, Option.some.injEq]
      constructor
      · intro h
        have := (Bool.and_eq_true _ _).mp h
        exact (beq_iff_eq.mp this.1).symm
      · intro h
        subst h
        simp

theorem singleton_isSuffixOf_iff (c : Char) (l : List Char) :
    [c].isSuffixOf l = true ↔ l.getLast? = some c := by
  show [c].reverse.isPrefixOf l.reverse = true ↔ _
  rw [List.reverse_singleton, singleton_isPrefixOf_iff, List.head?_reverse]

theorem singleton_suffix_iff (c : Char) (l : List Char) :
    [c] <:+ l ↔ l.getLast? = some c := by
  rw [← List.isSuffixOf_iff_suffix]
  exact singleton_isSuffixOf_iff c l

/-! ## C5: latency grades -/

/-- C5 counterexample: the claim grades a duration of exactly 600 ms as
warning, but `report` grades 600 ms as poor (`ms < 600` is strict). -/
theorem c5_grade_600_counterexample :
    grade 600 = Grade.poor ∧ grade 600 ≠ Grade.warning := by
  have h : grade 600 = Grade.poor := by norm_num [grade]
  exact ⟨h, by rw [h]; exact fun hc => Grade.noConfusion hc⟩

/-- C5 (amended): `report` grades a duration good exactly when it is under
300 ms, warning exactly when it is at least 300 ms and under 600 ms, and
poor exactly when it is 600 ms or more; 300 ms is warning, 600 ms is poor. -/
theorem c5_grade_boundaries :
    (∀ ms : ℚ, (grade ms = Grade.good ↔ ms < 300) ∧
      (grade ms = Grade.warning ↔ 300 ≤ ms ∧ ms < 600) ∧
      (grade ms = Grade.poor ↔ 600 ≤ ms)) ∧
    grade 300 = Grade.warning ∧ grade 600 = Grade.poor := by
  refine ⟨fun ms => ?_, by norm_num [grade], by norm_num [grade]⟩
  unfold grade
  split_ifs with h1 h2
  · exact ⟨⟨fun _ => h1, fun _ => rfl⟩,
      ⟨fun hg => absurd hg (by decide), fun hm => absurd h1 (not_lt.mpr hm.1)⟩,
      ⟨fun hg => absurd hg (by decide),
        fun hm => absurd h1 (not_lt.mpr (le_trans (by norm_num) hm))⟩⟩
  · push_neg at h1
    exact ⟨⟨fun hg => absurd hg (by decide), fun hm => absurd hm (not_lt.mpr h1)⟩,
      ⟨fun _ => ⟨h1, h2⟩, fun _ => rfl⟩,
      ⟨fun hg => absurd hg (by decide), fun hm => absurd h2 (not_lt.mpr hm)⟩⟩
  · push_neg at h1 h2
    exact ⟨⟨fun hg => absurd hg (by decide), fun hm => absurd hm (not_lt.mpr h1)⟩,
      ⟨fun hg => absurd hg (by decide), fun hm => absurd hm.2 (not_lt.mpr h2)⟩,
      ⟨fun _ => h2, fun _ => rfl⟩⟩

/-! ## C3: chunk length threshold -/

/-- C3 counterexample: a document whose single section trims to exactly 20
characters produces no chunk at all, although the claim says a trimmed
section of length exactly 20 is retained. -/
theorem c3_length20_counterexample :
    (stripL ("abcdefghij abcdefghi").data).length = 20 ∧
    splitContent "abcdefghij abcdefghi" "f.md" = [] := by
  constructor
  · decide
  · decide

/-- C3 (amended): a trimmed section is retained as a chunk exactly when its
length strictly exceeds 20 characters, so sections of length at most 20 —
including exactly 20 — are discarded. -/
theorem c3_section_threshold :
    ∀ (content source : String),
      (splitContent content source).map (fun d => d.content.data) =
        ((splitSections content.data).map stripL).filter (fun s => 20 < s.length) := by
  intro content source
  unfold splitContent
  induction splitSections content.data with
  | nil => rfl
  | cons sec rest ih =>
      simp only [List.filterMap_cons, List.map_cons, List.filter_cons]
      by_cases h : 20 < (stripL sec).length
      · simp [h]; exact ih
      · simp [h]; exact ih

/-! ## C8: profiler stop/start/reset contract -/

/-- C8: on a fresh or reset profiler `stop(name)` returns 0; `start(name)`
followed by `stop(name)` at a later-or-equal clock reading stores the elapsed
milliseconds under `name` and returns a non-negative value; `reset()` clears
everything so `report()` emits no entries. -/
theorem c8_profiler_contract :
    (∀ (name : String) (now : ℚ), (Profiler.init.stop name now).2 = 0) ∧
    (∀ (p : Profiler) (name : String) (now : ℚ), ((p.reset).stop name now).2 = 0) ∧
    (∀ (p : Profiler) (name : String) (t0 now : ℚ), t0 ≤ now →
        (dictGet (((p.start name t0).stop name now).1.times) name =
            some ((now - t0) * 1000) ∧
          ((p.start name t0).stop name now).2 = (now - t0) * 1000 ∧
          0 ≤ ((p.start name t0).stop name now).2)) ∧
    (∀ p : Profiler, (p.reset).report = []) := by
  refine ⟨fun name now => rfl, fun p name now => rfl, fun p name t0 now h => ?_, fun p => rfl⟩
  have hget : dictGet (p.start name t0).starts name = some t0 :=
    dictGet_dictSet_self p.starts name t0
  have hstop : ((p.start name t0).stop name now) =
      ({ (p.start name t0) with
          times := dictSet (p.start name t0).times name ((now - t0) * 1000) },
        (dictGet (dictSet (p.start name t0).times name ((now - t0) * 1000)) name).getD 0) := by
    unfold Profiler.stop
    rw [hget]
  rw [hstop]
  refine ⟨by simp [dictGet_dictSet_self], by simp [dictGet_dictSet_self], ?_⟩
  simp only [dictGet_dictSet_self, Option.getD_some]
  have h0 : (0 : ℚ) ≤ now - t0 := by linarith
  exact mul_nonneg h0 (by norm_num)

/-- C8 witness at concrete inputs. -/
theorem c8_profiler_contract_witness :
    (Profiler.init.stop "x" 5).2 = 0 ∧
    0 ≤ ((Profiler.init.start "x" (0 : ℚ)).stop "x" 1).2 ∧
    (Profiler.init.reset).report = [] :=
  ⟨c8_profiler_contract.1 "x" 5,
    (c8_profiler_contract.2.2.1 Profiler.init "x" 0 1 (by norm_num)).2.2,
    c8_profiler_contract.2.2.2 Profiler.init⟩

/-! ## C10: stop does not consume the start -/

/-- C10: the invariant that `times` keys are also `_starts` keys holds
initially and is preserved by `start`, `stop` and `reset`; `stop` leaves
`_starts` untouched, so after a single `start` each later `stop` recomputes
the elapsed time from the same original timestamp, yielding positive,
nondecreasing return values. -/
theorem c10_stop_preserves_start :
    timesKeysHaveStarts Profiler.init ∧
    (∀ (p : Profiler) (name : String) (now : ℚ), timesKeysHaveStarts p →
        timesKeysHaveStarts (p.start name now)) ∧
    (∀ (p : Profiler) (name : String) (now : ℚ), timesKeysHaveStarts p →
        timesKeysHaveStarts ((p.stop name now).1)) ∧
    (∀ p : Profiler, timesKeysHaveStarts (p.reset)) ∧
    (∀ (p : Profiler) (name : String) (now : ℚ), ((p.stop name now).1).starts = p.starts) ∧
    (∀ (p : Profiler) (name : String) (t0 now1 now2 : ℚ), t0 < now1 → now1 ≤ now2 →
        ((p.start name t0).stop name now1).2 = (now1 - t0) * 1000 ∧
        ((((p.start name t0).stop name now1).1).stop name now2).2 = (now2 - t0) * 1000 ∧
        0 < ((p.start name t0).stop name now1).2 ∧
        ((p.start name t0).stop name now1).2 ≤
          ((((p.start name t0).stop name now1).1).stop name now2).2) := by
  have hstopStarts : ∀ (p : Profiler) (name : String) (now : ℚ),
      ((p.stop name now).1).starts = p.starts := by
    intro p name now
    unfold Profiler.stop
    cases dictGet p.starts name <;> rfl
  have hstopEq : ∀ (p : Profiler) (name : String) (t0 now : ℚ),
      dictGet p.starts name = some t0 →
      (p.stop name now) =
        ({ p with times := dictSet p.times name ((now - t0) * 1000) },
          ((now - t0) * 1000)) := by
    intro p name t0 now hget
    unfold Profiler.stop
    rw [hget]
    simp [dictGet_dictSet_self]
  refine ⟨fun name h => by simp [Profiler.init, dictGet] at h,
    fun p name now hp n hn => ?_,
    fun p name now hp n hn => ?_,
    fun p name h => by simp [Profiler.reset, dictGet] at h,
    hstopStarts,
    fun p name t0 now1 now2 h1 h2 => ?_⟩
  · exact dictGet_dictSet_isSome p.starts n name now (hp n hn)
  · rw [hstopStarts]
    unfold Profiler.stop at hn
    rcases hget : dictGet p.starts name with _ | t0
    · rw [hget] at hn
      exact hp n hn
    · rw [hget] at hn
      simp only at hn
      by_cases hnm : name = n
      · subst hnm
        simp [hget]
      · rw [dictGet_dictSet_ne p.times n name _ hnm] at hn
        exact hp n hn
  · have hget1 : dictGet (p.start name t0).starts name = some t0 :=
      dictGet_dictSet_self p.starts name t0
    have e1 := hstopEq (p.start name t0) name t0 now1 hget1
    have hget2 : dictGet (((p.start name t0).stop name now1).1).starts name = some t0 := by
      rw [hstopStarts]
      exact hget1
    have e2 := hstopEq (((p.start name t0).stop name now1).1) name t0 now2 hget2
    rw [e1] at e2 ⊢
    rw [e2]
    have hpos : (0 : ℚ) < now1 - t0 := by linarith
    have hle : now1 - t0 ≤ now2 - t0 := by linarith
    refine ⟨rfl, rfl, ?_, ?_⟩ <;> dsimp only
    · exact mul_pos hpos (by norm_num)
    · exact mul_le_mul_of_nonneg_right hle (by norm_num)

/-- C10 witness at concrete inputs. -/
theorem c10_stop_preserves_start_witness :
    ((Profiler.init.start "x" (0 : ℚ)).stop "x" 1).2 = (1 - 0) * 1000 ∧
    ((((Profiler.init.start "x" (0 : ℚ)).stop "x" 1).1).stop "x" 2).2 = (2 - 0) * 1000 ∧
    0 < ((Profiler.init.start "x" (0 : ℚ)).stop "x" 1).2 ∧
    ((Profiler.init.start "x" (0 : ℚ)).stop "x" 1).2 ≤
      ((((Profiler.init.start "x" (0 : ℚ)).stop "x" 1).1).stop "x" 2).2 :=
  c10_stop_preserves_start.2.2.2.2.2 Profiler.init "x" 0 1 2 (by norm_num) (by norm_num)

/-! ## C9: persisted assistant text keeps bracketed spans -/

theorem foldl_step_fullResponse (tokens : List (List Char)) :
    ∀ st : ChatState, (tokens.foldl step st).fullResponse =
      st.fullResponse ++ tokens.flatten := by
  induction tokens with
  | nil => intro st; simp
  | cons t rest ih =>
      intro st
      rw [List.foldl_cons, ih]
      have hstep : (step st t).fullResponse = st.fullResponse ++ t := by
        unfold step
        by_cases h : shouldFlush (st.buffer ++ t)
        · simp [h]
        · simp [h]
      rw [hstep]
      simp

/-- C9: the assistant text persisted to history is the trimmed concatenation
of all generated tokens, with bracketed spans NOT removed, even though every
emitted text chunk has them removed; witnessed on a stream containing
`[laughs]`. -/
theorem c9_history_keeps_brackets :
    (∀ tokens : List (List Char),
        chatPersisted tokens = String.mk (stripL tokens.flatten)) ∧
    chatPersisted (["Hello [laughs] world,", " bye."].map String.data) =
      "Hello [laughs] world, bye." ∧
    chatEvents (["Hello [laughs] world,", " bye."].map String.data) =
      [Event.text "Hello  world, ", Event.audio "Hello  world,",
        Event.text "bye.", Event.audio "bye."] := by
  refine ⟨fun tokens => ?_, by decide, by decide⟩
  unfold chatPersisted runChat
  rw [foldl_step_fullResponse]
  rfl

/-! ## C4: settings update ignores unknown keys, but load does not -/

/-- C4 counterexample: loading a persisted state holding the unknown key
`"zzz"` keeps that key in the in-memory mapping, and `save` writes the
mapping back verbatim, so the next write-back contains a key outside the
default schema, contrary to the claim. -/
theorem c4_load_counterexample :
    dictGet (settingsLoad (some [("zzz", SVal.int 7)])) "zzz" = some (SVal.int 7) ∧
    hasKey DEFAULT_SETTINGS "zzz" = false := by
  constructor
  · decide
  · decide

/-- C4 (amended): `update` changes only keys present in the default schema —
an update containing only the unknown key `{"foo": 1}` leaves the stored
settings unchanged — but a persisted state with keys outside the schema is
merged over the defaults on load and written back as-is on the next save. -/
theorem c4_update_ignores_unknown :
    (∀ (st : List (String × SVal)) (updates : List (String × SVal)) (k : String),
        hasKey DEFAULT_SETTINGS k = false →
        dictGet (settingsUpdate st updates) k = dictGet st k) ∧
    settingsUpdate DEFAULT_SETTINGS [("foo", SVal.int 1)] = DEFAULT_SETTINGS := by
  refine ⟨fun st updates => ?_, rfl⟩
  induction updates generalizing st with
  | nil => intro k _; rfl
  | cons u rest ih =>
      intro k hk
      unfold settingsUpdate
      rw [List.foldl_cons]
      by_cases hu : hasKey DEFAULT_SETTINGS u.1 = true
      · rw [if_pos hu]
        have hne : u.1 ≠ k := fun he => by rw [he] at hu; rw [hu] at hk; cases hk
        have := ih (dictSet st u.1 u.2) k hk
        unfold settingsUpdate at this
        rw [this, dictGet_dictSet_ne st k u.1 u.2 hne]
      · rw [if_neg (by simpa using hu)]
        have := ih st k hk
        unfold settingsUpdate at this
        rw [this]

/-- C4 witness at a concrete unknown key. -/
theorem c4_update_ignores_unknown_witness :
    hasKey DEFAULT_SETTINGS "bar" = false ∧
    dictGet (settingsUpdate DEFAULT_SETTINGS [("temperature", SVal.int 0)]) "bar" =
      dictGet DEFAULT_SETTINGS "bar" :=
  ⟨by decide,
    c4_update_ignores_unknown.1 DEFAULT_SETTINGS [("temperature", SVal.int 0)] "bar"
      (by decide)⟩

/-! ## C6: keyword sets of scored chunks -/

/-- C6 counterexample: a section longer than 20 characters whose word tokens
are all shorter than 3 characters is loaded as a chunk with an EMPTY keyword
set, so not every loaded chunk carries a non-empty keyword set, and
`retrieve` does iterate over it. -/
theorem c6_empty_keywords_counterexample :
    (splitContent "ab ab ab ab ab ab ab ab" "n.md").map (fun d => d.keywords) = [[]] ∧
    20 < (stripL ("ab ab ab ab ab ab ab ab").data).length := by
  constructor
  · decide
  · decide

/-- C6 (amended): loaded chunks can carry an empty keyword set and `retrieve`
iterates over them too, but every chunk actually selected by `retrieve` has a
positive overlap and hence a non-empty keyword set. -/
theorem c6_selected_chunks_have_keywords :
    ∀ (docs : List Chunk) (query : String) (k : Nat) (p : Nat × Chunk),
      p ∈ topDocs docs query k → 0 < p.1 ∧ p.2.keywords ≠ [] := by
  intro docs query k p hp
  have hp1 : p ∈ sortDesc (scoredDocs docs query) := List.mem_of_mem_take hp
  have hp2 : p ∈ scoredDocs docs query := by
    unfold sortDesc at hp1
    exact (List.mem_insertionSort _).mp hp1
  unfold scoredDocs at hp2
  obtain ⟨d, _, he⟩ := List.mem_filterMap.mp hp2
  dsimp only at he
  split_ifs at he with hov
  · injection he with he'
    rw [← he']
    refine ⟨hov, fun hnil => ?_⟩
    rw [overlap, hnil] at hov
    simp at hov

/-- C6 witness: a selected chunk at concrete inputs. -/
theorem c6_selected_chunks_have_keywords_witness :
    0 < (1, (⟨"alpha bravo charlie here", "a.md",
        ["alpha", "bravo", "charlie", "here"]⟩ : Chunk)).1 ∧
    (1, (⟨"alpha bravo charlie here", "a.md",
        ["alpha", "bravo", "charlie", "here"]⟩ : Chunk)).2.keywords ≠ [] :=
  c6_selected_chunks_have_keywords
    [⟨"alpha bravo charlie here", "a.md", ["alpha", "bravo", "charlie", "here"]⟩]
    "alpha" 2 _ (by decide)

/-! ## C2: retrieval scoring, ordering and formatting -/

/-- C2: `retrieve` returns the empty string when no chunks are loaded or no
chunk has positive keyword overlap; the kept chunks are sorted nonincreasingly
by overlap with ties kept in load order (stable sort); and on three chunks
with overlaps 3, 1 and 2 against the query, `retrieve` with `top_k = 2`
returns the overlap-3 chunk then the overlap-2 chunk — each rendered as its
source-prefixed first 500 characters, joined by a blank line — for every one
of the six load orders. -/
theorem c2_retrieve_scoring :
    (∀ (query : String) (k : Nat), retrieve [] query k = "") ∧
    (∀ (docs : List Chunk) (query : String) (k : Nat),
        (∀ d ∈ docs, overlap (keywordsOf query) d.keywords = 0) →
        retrieve docs query k = "") ∧
    (∀ l : List (Nat × Chunk), (sortDesc l).Sorted (fun a b => b.1 ≤ a.1)) ∧
    (∀ (l : List (Nat × Chunk)) (a b : Nat × Chunk), a.1 = b.1 → List.Sublist [a, b] l →
        List.Sublist [a, b] (sortDesc l)) ∧
    (let A : Chunk := ⟨"alpha bravo charlie here", "a.md",
        ["alpha", "bravo", "charlie", "here"]⟩
      let B : Chunk := ⟨"alpha delta echo foxtrot", "b.md",
        ["alpha", "delta", "echo", "foxtrot"]⟩
      let C : Chunk := ⟨"alpha bravo golf hotel", "c.md",
        ["alpha", "bravo", "golf", "hotel"]⟩
      ([[A, B, C], [A, C, B], [B, A, C], [B, C, A], [C, A, B], [C, B, A]]).all
        (fun docs => retrieve docs "alpha bravo charlie" 2 ==
          "[From a.md]\nalpha bravo charlie here\n\n[From c.md]\nalpha bravo golf hotel") =
        true) := by
  refine ⟨fun query k => rfl, fun docs query k h => ?_, fun l => ?_,
    fun l a b hab hsub => ?_, by decide⟩
  · have hs : scoredDocs docs query = [] := by
      unfold scoredDocs
      rw [List.filterMap_eq_nil_iff]
      intro d hd
      simp [h d hd]
    simp [retrieve, topDocs, hs, sortDesc, List.insertionSort]
  · exact List.sorted_insertionSort _ l
  · exact List.pair_sublist_insertionSort (le_of_eq hab.symm) hsub

/-- C2 witness: the empty-result and stability conjuncts at concrete
inputs. -/
theorem c2_retrieve_scoring_witness :
    retrieve [⟨"zzz", "z.md", ["zzz"]⟩] "alpha" 2 = "" ∧
    List.Sublist [((3 : Nat), (⟨"a", "a.md", ["aaa"]⟩ : Chunk)), (3, ⟨"b", "b.md", ["bbb"]⟩)]
      (sortDesc [(3, ⟨"a", "a.md", ["aaa"]⟩), (3, ⟨"b", "b.md", ["bbb"]⟩)]) :=
  ⟨c2_retrieve_scoring.2.1 [⟨"zzz", "z.md", ["zzz"]⟩] "alpha" 2 (by decide),
    c2_retrieve_scoring.2.2.2.1 [(3, ⟨"a", "a.md", ["aaa"]⟩), (3, ⟨"b", "b.md", ["bbb"]⟩)]
      (3, ⟨"a", "a.md", ["aaa"]⟩) (3, ⟨"b", "b.md", ["bbb"]⟩) rfl (List.Sublist.refl _)⟩

/-! ## C7: WAV audio encoder -/

theorem sampleInt_zero : sampleInt 0 = 0 := by
  have h : truncQ ((0 : ℚ) * 32767) = 0 := by
    unfold truncQ
    norm_num
  unfold sampleInt
  rw [h]
  decide

theorem wavHeader_length (rate n : Nat) : (wavHeader rate n).length = 44 := by
  simp [wavHeader, asciiCodes, le32, le16]

theorem encoded_samples_length (samples : List ℚ) :
    ((samples.map (fun q => le16 (sampleInt q))).flatten).length = 2 * samples.length := by
  induction samples with
  | nil => rfl
  | cons q rest ih =>
      rw [List.map_cons, List.flatten_cons, List.length_append, ih, List.length_cons]
      simp only [le16, List.length_cons, List.length_nil]
      omega

theorem flatten_replicate_pair (n : Nat) :
    (List.replicate n ([0, 0] : List Nat)).flatten = List.replicate (2 * n) 0 := by
  induction n with
  | zero => rfl
  | succ m ih =>
      rw [List.replicate_succ, List.flatten_cons, ih]
      have h2 : 2 * (m + 1) = 2 + 2 * m := by ring
      rw [h2, List.replicate_add]
      rfl

/-- C7: the encoder is a pure function producing the 44-byte canonical
single-channel 16-bit PCM WAV header followed by the samples, each scaled by
32767 and truncated toward zero into a 16-bit signed integer; an all-zero
input of length `n` yields `n` all-zero 16-bit samples, an input sample of
1.0 yields 32767, in-range samples incur no wraparound, and the header's
little-endian sample-rate field decodes back to the requested rate. -/
theorem c7_wav_encoder :
    (∀ (samples : List ℚ) (rate : Nat),
        (audio_to_wav_bytes samples rate).length = 44 + 2 * samples.length) ∧
    (∀ (n : Nat) (rate : Nat),
        audio_to_wav_bytes (List.replicate n 0) rate =
          wavHeader rate n ++ List.replicate (2 * n) 0) ∧
    sampleInt 1 = 32767 ∧
    (∀ q : ℚ, -1 ≤ q → q ≤ 1 →
        sampleInt q = truncQ (q * 32767) ∧
        -32767 ≤ sampleInt q ∧ sampleInt q ≤ 32767) ∧
    (∀ m : Nat, m < 4294967296 → decodeLe32 (le32 m) = m) := by
  refine ⟨fun samples rate => ?_, fun n rate => ?_, ?_, fun q h1 h2 => ?_,
    fun m hm => ?_⟩
  · unfold audio_to_wav_bytes
    rw [List.length_append, wavHeader_length, encoded_samples_length]
  · unfold audio_to_wav_bytes
    have hle : le16 (sampleInt 0) = [0, 0] := by rw [sampleInt_zero]; decide
    rw [List.map_replicate, hle, flatten_replicate_pair, List.length_replicate]
  · have h : truncQ ((1 : ℚ) * 32767) = 32767 := by
      unfold truncQ
      norm_num
    unfold sampleInt
    rw [h]
    decide
  · have hub : q * 32767 ≤ 32767 := by nlinarith
    have hlb : (-32767 : ℚ) ≤ q * 32767 := by nlinarith
    have ht : -32767 ≤ truncQ (q * 32767) ∧ truncQ (q * 32767) ≤ 32767 := by
      unfold truncQ
      split_ifs with h
      · constructor
        · have h0 : (0 : ℤ) ≤ ⌊q * 32767⌋ := Int.floor_nonneg.mpr h
          omega
        · have hf : ⌊q * 32767⌋ ≤ ⌊(32767 : ℚ)⌋ := Int.floor_le_floor hub
          have he : ⌊(32767 : ℚ)⌋ = 32767 := by norm_num
          omega
      · push_neg at h
        constructor
        · have hc : ⌈(-32767 : ℚ)⌉ ≤ ⌈q * 32767⌉ := Int.ceil_le_ceil hlb
          have he : ⌈(-32767 : ℚ)⌉ = -32767 := by
            rw [show ((-32767 : ℚ)) = ((-32767 : ℤ) : ℚ) by norm_num]
            exact Int.ceil_intCast _
          omega
        · have h0 : ⌈q * 32767⌉ ≤ (0 : ℤ) := Int.ceil_le.mpr (by exact_mod_cast h.le)
          omega
    have heq : sampleInt q = truncQ (q * 32767) := by
      unfold sampleInt toInt16
      omega
    rw [heq]
    exact ⟨rfl, ht.1, ht.2⟩
  · simp only [le32, decodeLe32]
    omega

/-- C7 witness: the in-range and rate-field conjuncts at concrete inputs. -/
theorem c7_wav_encoder_witness :
    (sampleInt (1/2 : ℚ) = truncQ ((1/2 : ℚ) * 32767) ∧
      -32767 ≤ sampleInt (1/2 : ℚ) ∧ sampleInt (1/2 : ℚ) ≤ 32767) ∧
    decodeLe32 (le32 24000) = 24000 :=
  ⟨c7_wav_encoder.2.2.2.1 (1/2) (by norm_num) (by norm_num),
    c7_wav_encoder.2.2.2.2 24000 (by norm_num)⟩

/-! ## C1: token-stream chunking and flushing -/

/-- C1: a flush happens exactly when the right-stripped buffer ends in one of
the six delimiters AND the raw buffer length exceeds 5; a flush strips
bracketed spans, emits one text event followed by exactly one audio event
when the cleaned text is non-empty, and clears the buffer; a trailing
non-whitespace buffer is flushed once at stream end; and the token stream
spelling "Hello, how are you? Thanks" flushes first at "Hello,", then at
"how are you?", each with exactly one audio event, then "Thanks" at stream
end. -/
theorem c1_streaming_flush :
    (∀ b : List Char, shouldFlush b = true ↔
        ((∃ c ∈ delims, (rstripL b).getLast? = some c) ∧ 5 < b.length)) ∧
    (∀ (st : ChatState) (token : List Char), shouldFlush (st.buffer ++ token) = true →
        (step st token).buffer = [] ∧
        (step st token).events = st.events ++ flushEvents (st.buffer ++ token)) ∧
    (∀ (st : ChatState) (token : List Char), shouldFlush (st.buffer ++ token) = false →
        (step st token).buffer = st.buffer ++ token ∧
        (step st token).events = st.events) ∧
    (∀ st : ChatState, stripL st.buffer ≠ [] → cleanOf st.buffer ≠ [] →
        finalEvents st = st.events ++
          [Event.text (String.mk (cleanOf st.buffer)),
            Event.audio (String.mk (cleanOf st.buffer))]) ∧
    (chatEvents (["Hello,", " how", " are", " you?", " Thanks"].map String.data) =
      [Event.text "Hello, ", Event.audio "Hello,",
        Event.text "how are you? ", Event.audio "how are you?",
        Event.text "Thanks", Event.audio "Thanks"]) := by
  refine ⟨fun b => ?_, fun st token h => ?_, fun st token h => ?_,
    fun st h1 h2 => ?_, by decide⟩
  · simp [shouldFlush, singleton_isSuffixOf_iff, singleton_suffix_iff]
  · unfold step
    rw [if_pos h]
    exact ⟨rfl, rfl⟩
  · unfold step
    rw [if_neg (by simp [h])]
    exact ⟨rfl, rfl⟩
  · unfold finalEvents
    rw [if_neg (fun hc => h1 (by simpa using hc))]
    dsimp only
    rw [if_neg (fun hc => h2 (by simpa using hc))]

/-- C1 witness: a mid-stream flush and the trailing flush at concrete
inputs. -/
theorem c1_streaming_flush_witness :
    ((step initState ("Hello,".data)).buffer = [] ∧
      (step initState ("Hello,".data)).events =
        initState.events ++ flushEvents (initState.buffer ++ "Hello,".data)) ∧
    finalEvents ⟨"Thanks".data, [], "Thanks".data⟩ =
      (⟨"Thanks".data, [], "Thanks".data⟩ : ChatState).events ++
        [Event.text (String.mk (cleanOf (⟨"Thanks".data, [], "Thanks".data⟩ :
            ChatState).buffer)),
          Event.audio (String.mk (cleanOf (⟨"Thanks".data, [], "Thanks".data⟩ :
            ChatState).buffer))] :=
  ⟨c1_streaming_flush.2.1 initState ("Hello,".data) (by decide),
    c1_streaming_flush.2.2.2.1 ⟨"Thanks".data, [], "Thanks".data⟩ (by decide) (by decide)⟩

end Midas











